import Mathlib

/-- Python's `round` to the nearest integer with ties to even (banker's
rounding), on exact rationals. -/
def pyRound (x : ℚ) : ℤ :=
  if x - ⌊x⌋ < 1/2 then ⌊x⌋
  else if 1/2 < x - ⌊x⌋ then ⌊x⌋ + 1
  else if ⌊x⌋ % 2 = 0 then ⌊x⌋ else ⌊x⌋ + 1

/-- Python's `round(x, 2)`: round to 2 decimal places. -/
def round2 (x : ℚ) : ℚ := (pyRound (x * 100) : ℚ) / 100

/-- Python `needle in hay` substring test, on character lists. -/
def containsSub (needle hay : List Char) : Bool :=
  hay.tails.any (fun t => needle.isPrefixOf t)

/-- Lower-casing, Python `str.lower` (ASCII-faithful). -/
def lowerStr (s : String) : List Char := s.toList.map Char.toLower

/-- `EMOTION_KEYWORDS` from `analysis_utils.py`, in source (insertion) order. -/
def EMOTION_KEYWORDS : List (String × List String) :=
  [ ("joy", ["happy", "joy", "excited", "great", "wonderful", "delighted"])
  , ("sadness", ["sad", "down", "unhappy", "depressed", "gloomy"])
  , ("anger", ["angry", "mad", "furious", "irritated", "annoyed"])
  , ("fear", ["afraid", "scared", "fearful", "nervous", "worried"])
  , ("surprise", ["surprised", "shocked", "amazed", "astonished"])
  , ("love", ["love", "caring", "affection", "compassion", "kindness"]) ]

/-- The taxonomy's canonical insertion order (the dict key order). -/
def emotionOrder : List String :=
  ["joy", "sadness", "anger", "fear", "surprise", "love"]

/-- `scores[emotion]`: number of that emotion's keywords occurring as
substrings of the lower-cased text, each keyword counted at most once. -/
def kwScore (text : String) (e : String) : ℕ :=
  (((EMOTION_KEYWORDS.lookup e).getD []).filter
    (fun w => containsSub w.toList (lowerStr text))).length

/-- `sum(scores.values())`. -/
def totalRaw (text : String) : ℕ :=
  (emotionOrder.map (kwScore text)).sum

/-- `total = sum(scores.values()) or 1` (Python falsy-zero guard). -/
def totalDiv (text : String) : ℕ :=
  if totalRaw text = 0 then 1 else totalRaw text

/-- `distribution[e] = round((c / total) * 100, 2)`. -/
def distribution (text : String) (e : String) : ℚ :=
  round2 ((kwScore text e : ℚ) / (totalDiv text : ℚ) * 100)

/-- One step of Python's `max(..., key=f)`: the running best is replaced
only on a strictly greater key (Python compares whatever the key function
returns, generically any linear order). -/
def pyMaxStepG {β : Type} [LinearOrder β] (f : String → β) (best x : String) : String :=
  if f x > f best then x else best

/-- Python's `max(iterable, key=f)` over a nonempty list: left fold of
`pyMaxStepG` with the first element as initial best. -/
def pyArgmaxG {β : Type} [LinearOrder β] (f : String → β) (l : List String) : String :=
  match l with
  | [] => ""
  | x :: xs => xs.foldl (pyMaxStepG f) x

/-- `analyze_text(text)["emotion"]` — `max(distribution, key=distribution.get)`
where the dict's keys iterate in taxonomy insertion order. -/
def analyze_emotion (text : String) : String :=
  pyArgmaxG (distribution text) emotionOrder

/-- The specification's formulation of the tie-break policy: the dominant
emotion is the first emotion in the taxonomy's canonical insertion order
attaining the maximum value. -/
def specDominant {β : Type} [LinearOrder β] (f : String → β) : String :=
  (emotionOrder.find? (fun e => emotionOrder.all (fun y => f y ≤ f e))).getD "joy"

/-- `MOOD_MAPPING` from `journal_api.py`. -/
def MOOD_MAPPING : List (String × String) :=
  [ ("joy", "happy"), ("sadness", "sad"), ("anger", "angry")
  , ("fear", "sad"), ("surprise", "neutral"), ("love", "happy") ]

/-- `MOOD_MAPPING.get(dominant_emotion, "neutral")`. -/
def mappedMood (emotion : String) : String :=
  (MOOD_MAPPING.lookup emotion).getD "neutral"

/-- The fixed user-facing mood taxonomy (the keys of `MOOD_EMOJIS`). -/
def moodTaxonomy : List String := ["happy", "calm", "neutral", "sad", "angry"]

/-- `base_scores.get(emotion, 0.5)` from `calculate_mood_score`, with the
dict in source order. -/
def baseScore (emotion : String) : ℚ :=
  ((([ ("joy", (0.8 : ℚ)), ("love", 0.9), ("surprise", 0.6), ("sadness", 0.2)
     , ("anger", 0.1), ("fear", 0.3) ] : List (String × ℚ)).lookup emotion).getD 0.5)

/-- `calculate_mood_score(emotion, sentiment_score)`:
`round(max(0, min(1, base*0.6 + (s+1)/2*0.4)), 2)`. -/
def calculate_mood_score (emotion : String) (sentiment : ℚ) : ℚ :=
  round2 (max 0 (min 1 (baseScore emotion * 0.6 + (sentiment + 1) / 2 * 0.4)))

/-- The specification's clamp `clamp(0,1,x)`. -/
def specClamp01 (x : ℚ) : ℚ := max 0 (min 1 x)

/-- The specification's fixed base-weight table: joy 0.8, love 0.9,
surprise 0.6, sadness 0.2, anger 0.1, fear 0.3; unknown emotion 0.5. -/
def specBaseWeight (emotion : String) : ℚ :=
  if emotion = "joy" then 0.8
  else if emotion = "love" then 0.9
  else if emotion = "surprise" then 0.6
  else if emotion = "sadness" then 0.2
  else if emotion = "anger" then 0.1
  else if emotion = "fear" then 0.3
  else 0.5

/-- Python dict insertion: a repeated key overwrites the earlier value in
place. -/
def dictInsert (k : String) (v : ℚ) : List (String × ℚ) → List (String × ℚ)
  | [] => [(k, v)]
  | (k', v') :: rest => if k' = k then (k, v) :: rest else (k', v') :: dictInsert k v rest

/-- The `mood_scores` dict literal of `analyze_text_complete`, built by
inserting the four entries in source order; a duplicate key (possible only
when the winning mood is itself `"neutral"`) keeps a single entry whose
value is the later one. -/
def mood_scores_dict (mapped : String) (moodScore sentiment : ℚ) : List (String × ℚ) :=
  dictInsert "neutral" (1 - |sentiment|)
    (dictInsert "negative" (max 0 (-sentiment))
      (dictInsert "positive" (max 0 sentiment)
        (dictInsert mapped moodScore [])))

/-- `analyze_text_complete`'s `dominant_mood` field. -/
def dominant_mood (text : String) : String := mappedMood (analyze_emotion text)

/-- `analyze_text_complete`'s `mood_scores` field; the compound sentiment
score of the external VADER analyzer is a parameter. -/
def analyze_mood_scores (text : String) (sentiment : ℚ) : List (String × ℚ) :=
  mood_scores_dict (dominant_mood text)
    (calculate_mood_score (analyze_emotion text) sentiment) sentiment

/-- Sentence terminators of the `re.split(r'[.!?]+', ...)` pattern. -/
def isTerm (c : Char) : Bool := c = '.' || c = '!' || c = '?'

/-- `re.split` on runs of separator characters: a maximal run of characters
satisfying `p` is a single separator; a leading or trailing run yields an
empty piece; the result always has at least one piece. -/
def reSplit (p : Char → Bool) : List Char → List (List Char)
  | [] => [[]]
  | c :: cs =>
    if p c then
      match cs with
      | d :: _ => if p d then reSplit p cs else [] :: reSplit p cs
      | [] => [] :: reSplit p cs
    else
      match reSplit p cs with
      | [] => [[c]]
      | t :: ts => (c :: t) :: ts

/-- Python `str.strip()`: drop whitespace from both ends. -/
def pyStrip (l : List Char) : List Char :=
  ((l.dropWhile Char.isWhitespace).reverse.dropWhile Char.isWhitespace).reverse

/-- Python `str.split()` with no argument: split on whitespace runs,
discarding empty pieces. -/
def pySplitWs (l : List Char) : List (List Char) :=
  (reSplit (fun c => c.isWhitespace) l).filter (fun w => ¬ w.isEmpty)

/-- `summarize_text(text, max_words=15)` from `journal_api.py`. -/
def summarize_text (text : String) (maxWords : ℕ := 15) : String :=
  let sentences := reSplit isTerm (pyStrip text.toList)
  if sentences.isEmpty then "No summary available"
  else
    let firstSentence := pyStrip (sentences.headD [])
    let ws := pySplitWs firstSentence
    if ws.length ≤ maxWords then String.mk firstSentence ++ "."
    else String.mk (List.intercalate [' '] (ws.take maxWords)) ++ "..."

/-- The stop-word set of `extract_keywords`, verbatim from the source (the
Python set literal lists `'her'` twice; membership is unaffected). -/
def stop_words : List String :=
  [ "the", "and", "or", "but", "in", "on", "at", "to", "for", "of", "with"
  , "by", "was", "were", "is", "are", "am", "be", "been", "being", "have"
  , "has", "had", "do", "does", "did", "will", "would", "could", "should"
  , "may", "might", "must", "can", "a", "an", "this", "that", "these"
  , "those", "i", "you", "he", "she", "it", "we", "they", "me", "him"
  , "her", "us", "them", "my", "your", "his", "her", "its", "our", "their" ]

/-- `re.sub(r'[^\w\s]', '', text.lower())`: keep word characters
(alphanumerics and underscore) and whitespace. -/
def cleanChars (text : String) : List Char :=
  (lowerStr text).filter (fun c => c.isAlphanum || c = '_' || c.isWhitespace)

/-- The token list of `extract_keywords`: whitespace-split the cleaned
text, keep tokens longer than 3 characters that are not stop words. -/
def keywordTokens (text : String) : List String :=
  ((pySplitWs (cleanChars text)).map (fun w => String.mk w)).filter
    (fun w => 3 < w.length ∧ w ∉ stop_words)

/-- The keys of `Counter(words)` in Python dict (first-occurrence) order. -/
def firstKeys (l : List String) : List String :=
  l.foldl (fun acc w => if w ∈ acc then acc else acc ++ [w]) []

/-- Counter items `(word, count)` in first-occurrence order. -/
def counterPairs (ws : List String) : List (String × ℕ) :=
  (firstKeys ws).map (fun w => (w, ws.count w))

/-- Sorting key of `Counter.most_common`: count descending. -/
def rankRel : (String × ℕ) → (String × ℕ) → Prop := fun p q => q.2 ≤ p.2

instance : DecidableRel rankRel := fun p q => inferInstanceAs (Decidable (q.2 ≤ p.2))

instance : IsTotal (String × ℕ) rankRel := ⟨fun a b => le_total b.2 a.2⟩

instance : IsTrans (String × ℕ) rankRel := ⟨fun _ _ _ h1 h2 => le_trans h2 h1⟩

/-- `Counter(ws).most_common(n)`: stable sort of the counter items by count
descending (CPython's `sorted` is stable; `insertionSort` with `rankRel`
places an earlier item before later items of equal count, which is the same
stable order), truncated to `n`. -/
def most_common (ws : List String) (n : ℕ) : List (String × ℕ) :=
  (List.insertionSort rankRel (counterPairs ws)).take n

/-- `extract_keywords(text, top_n=8)` from `journal_api.py`. -/
def extract_keywords (text : String) (topN : ℕ := 8) : List String :=
  (most_common (keywordTokens text) topN).map Prod.fst

/-- A stored journal document, restricted to the fields the streak and
insights computations read (`get_user_streak` reads only `datetime`;
`get_insights` also reads `dominant_mood`, `mood_scores`,
`sentiment_score` and `keywords`). -/
structure StoredEntry where
  datetime : String
  dominant_mood : String
  mood_scores : List (String × ℚ)
  sentiment_score : ℚ
  keywords : List String

/-- Lexicographic comparison of character lists: the order MongoDB (and
Python) use on the stored ASCII ISO-8601 `datetime` strings. -/
def charsLe : List Char → List Char → Bool
  | [], _ => true
  | _ :: _, [] => false
  | a :: as, b :: bs => if a < b then true else if b < a then false else charsLe as bs

/-- The relation of the store's `.sort("datetime", -1)` (descending). -/
def dtDesc : StoredEntry → StoredEntry → Prop :=
  fun a b => charsLe b.datetime.toList a.datetime.toList = true

instance : DecidableRel dtDesc := fun a b =>
  inferInstanceAs (Decidable (_ = true))

/-- `.sort("datetime", -1)` on the user's documents. -/
def sortByDatetimeDesc (es : List StoredEntry) : List StoredEntry :=
  List.insertionSort dtDesc es

/-- The consecutive-day loop of `get_user_streak`: at index `i` the
expected date is `today - i`; the loop breaks at the first mismatch. -/
def countConsec (today : ℤ) : List ℤ → ℕ
  | [] => 0
  | d :: ds => if d = today then 1 + countConsec (today - 1) ds else 0

/-- The descending-sort relation used on the deduplicated dates
(`sorted(set(entry_dates), reverse=True)`). -/
instance : DecidableRel (fun a b : ℤ => b ≤ a) := fun a b =>
  inferInstanceAs (Decidable (b ≤ a))

instance : IsTotal ℤ (fun a b : ℤ => b ≤ a) := ⟨fun a b => le_total b a⟩

instance : IsTrans ℤ (fun a b : ℤ => b ≤ a) := ⟨fun _ _ _ h1 h2 => le_trans h2 h1⟩

/-- `get_user_streak` after the fetch.  `parse` is the external
`datetime.fromisoformat(dt.replace('Z','+00:00')).date()`; a `none` models
the per-entry exception that the bare `except: continue` swallows.
`today` is `datetime.now().date()` (the process clock), as a day number. -/
def streakOfEntries (parse : String → Option ℤ) (today : ℤ)
    (entries : List StoredEntry) : ℕ :=
  if entries.isEmpty then 0
  else if (entries.filterMap (fun e => parse e.datetime)).isEmpty then 0
  else
    countConsec today
      (List.insertionSort (fun a b : ℤ => b ≤ a)
        (entries.filterMap (fun e => parse e.datetime)).dedup)

/-- `get_user_streak(user_id)`: `store` is the user's stored documents;
the fetch takes the 30 most recent by `datetime` descending. -/
def get_user_streak (parse : String → Option ℤ) (today : ℤ)
    (store : List StoredEntry) : ℕ :=
  streakOfEntries parse today ((sortByDatetimeDesc store).take 30)

/-- The per-entry loop of `get_insights`: for each entry, parse its
timestamp (failure skips the whole entry — the `try`covers the entry),
emit a `strftime("%m/%d")` label (`label`, external), a mood score (the
stored `mood_scores` value for the stored `dominant_mood`, default `0.5`;
an empty `mood_scores` falls back to `(sentiment+1)/2`) and collect its
keywords. -/
def insightsLoop (parse : String → Option ℤ) (label : ℤ → String) :
    List StoredEntry → List String × List ℚ × List String
  | [] => ([], [], [])
  | e :: es =>
    let r := insightsLoop parse label es
    match parse e.datetime with
    | none => r
    | some d =>
      let score : ℚ :=
        if e.mood_scores.isEmpty then (e.sentiment_score + 1) / 2
        else (e.mood_scores.lookup e.dominant_mood).getD (1/2)
      (label d :: r.1, score :: r.2.1, e.keywords ++ r.2.2)

/-- `get_insights` over the range-filtered, ascending-sorted entry list
(the range filter and sort happen in the MongoDB query): the three trend
series plus the top-20 keyword frequencies. -/
def get_insights (parse : String → Option ℤ) (label : ℤ → String)
    (entries : List StoredEntry) : List String × List ℚ × List (String × ℕ) :=
  let r := insightsLoop parse label entries
  (r.1, r.2.1, most_common r.2.2 20)

/-- The `mood` field persisted by `save_entry`:
`entry.mood or analysis["dominant_mood"]` (Python `or` treats `None` and
the empty string as falsy and keeps any other client string verbatim). -/
def savedMood (reqMood : Option String) (text : String) : String :=
  match reqMood with
  | none => dominant_mood text
  | some m => if m = "" then dominant_mood text else m

/-- Decimal digits to a number, most significant first. -/
def toNatDigits (cs : List Char) : ℕ :=
  cs.foldl (fun n c => 10 * n + (c.toNat - 48)) 0

/-- Civil date to day number (proleptic Gregorian, 1970-01-01 = 0);
the standard era-based conversion. -/
def daysFromCivil (y m d : ℤ) : ℤ :=
  let y' := if m ≤ 2 then y - 1 else y
  let era := (if 0 ≤ y' then y' else y' - 399) / 400
  let yoe := y' - era * 400
  let mp := (m + 9) % 12
  let doy := (153 * mp + 2) / 5 + d - 1
  let doe := yoe * 365 + yoe / 4 - yoe / 100 + doy
  era * 146097 + doe - 719468

/-- A concrete model of the external
`datetime.fromisoformat(s.replace('Z','+00:00')).date()`: accept a
`YYYY-MM-DD` prefix followed by nothing or a `T`/space separator, and
return the civil day number; anything else is a parse failure (`none`),
i.e. the exception path.  Used to instantiate the parse parameter on
concrete inputs; the theorems about the streak/insights skip policy hold
for every parse function. -/
def isoDate (s : String) : Option ℤ :=
  match s.toList with
  | y1 :: y2 :: y3 :: y4 :: '-' :: m1 :: m2 :: '-' :: d1 :: d2 :: rest =>
    if ([y1, y2, y3, y4, m1, m2, d1, d2].all Char.isDigit
        && (rest.isEmpty || rest.headD ' ' = 'T' || rest.headD ' ' = ' ')) then
      let y : ℤ := (toNatDigits [y1, y2, y3, y4] : ℕ)
      let m : ℤ := (toNatDigits [m1, m2] : ℕ)
      let d : ℤ := (toNatDigits [d1, d2] : ℕ)
      if 1 ≤ m ∧ m ≤ 12 ∧ 1 ≤ d ∧ d ≤ 31 then some (daysFromCivil y m d)
      else none
    else none
  | _ => none

/-- A stored document carrying only a timestamp (the other fields are not
read by the streak computation). -/
def cexEntry (dt : String) : StoredEntry := ⟨dt, "neutral", [], 0, []⟩

/-- A store whose entries fall on exactly the dates
{2025-06-10, 2025-06-09, 2025-06-08} (with a gap before), but with 31 of
the 33 entries written on 2025-06-10. -/
def cexStore : List StoredEntry :=
  List.replicate 31 (cexEntry "2025-06-10T09:00:00")
    ++ [cexEntry "2025-06-09T09:00:00", cexEntry "2025-06-08T09:00:00"]

theorem abs_pyRound_sub (x : ℚ) : |(pyRound x : ℚ) - x| ≤ 1/2 := by
  have h0 : (⌊x⌋ : ℚ) ≤ x := Int.floor_le x
  have h1 : x < (⌊x⌋ : ℚ) + 1 := Int.lt_floor_add_one x
  unfold pyRound
  split_ifs <;> (rw [abs_le]; push_cast; constructor <;> linarith)

theorem pyRound_intCast (n : ℤ) : pyRound (n : ℚ) = n := by
  unfold pyRound
  simp [Int.floor_intCast]

theorem pyRound_nonneg {x : ℚ} (hx : 0 ≤ x) : 0 ≤ pyRound x := by
  have h0 : (0 : ℤ) ≤ ⌊x⌋ := Int.floor_nonneg.mpr hx
  unfold pyRound
  split_ifs <;> omega

theorem pyRound_le_of_le {x : ℚ} {m : ℤ} (hx : x ≤ m) : pyRound x ≤ m := by
  have h0 : ⌊x⌋ ≤ m := by
    have := Int.floor_le_floor hx
    simpa using this
  rcases eq_or_lt_of_le h0 with heq | hlt
  · have hxm : x - ⌊x⌋ < 1/2 := by
      have : x ≤ (⌊x⌋ : ℚ) := by rw [heq]; exact_mod_cast hx
      linarith
    unfold pyRound
    rw [if_pos hxm]; omega
  · unfold pyRound
    split_ifs <;> omega

theorem foldl_pyMaxStepG_mem {β : Type} [LinearOrder β] (f : String → β) :
    ∀ (xs : List String) (best : String), xs.foldl (pyMaxStepG f) best ∈ best :: xs := by
  intro xs
  induction xs with
  | nil => intro best; simp
  | cons x xs ih =>
    intro best
    simp only [List.foldl_cons]
    rcases List.mem_cons.mp (ih (pyMaxStepG f best x)) with h | h
    · rw [h]
      unfold pyMaxStepG
      split_ifs <;> simp
    · simp [h]

theorem le_foldl_pyMaxStepG {β : Type} [LinearOrder β] (f : String → β) :
    ∀ (xs : List String) (best : String),
      f best ≤ f (xs.foldl (pyMaxStepG f) best) := by
  intro xs
  induction xs with
  | nil => intro best; simp
  | cons x xs ih =>
    intro best
    simp only [List.foldl_cons]
    refine le_trans ?_ (ih (pyMaxStepG f best x))
    unfold pyMaxStepG
    split_ifs with h
    · exact le_of_lt h
    · exact le_refl _

theorem all_le_foldl_pyMaxStepG {β : Type} [LinearOrder β] (f : String → β) :
    ∀ (xs : List String) (best : String), ∀ y ∈ best :: xs,
      f y ≤ f (xs.foldl (pyMaxStepG f) best) := by
  intro xs
  induction xs with
  | nil =>
    intro best y hy
    simp at hy
    simp [hy]
  | cons x xs ih =>
    intro best y hy
    simp only [List.foldl_cons]
    have hstep : f best ≤ f (pyMaxStepG f best x) ∧ f x ≤ f (pyMaxStepG f best x) := by
      unfold pyMaxStepG
      split_ifs with h
      · exact ⟨le_of_lt h, le_refl _⟩
      · exact ⟨le_refl _, le_of_not_lt h⟩
    rcases List.mem_cons.mp hy with h | h
    · rw [h]
      exact le_trans hstep.1 (le_foldl_pyMaxStepG f xs (pyMaxStepG f best x))
    rcases List.mem_cons.mp h with h2 | h2
    · rw [h2]
      exact le_trans hstep.2 (le_foldl_pyMaxStepG f xs (pyMaxStepG f best x))
    · exact ih (pyMaxStepG f best x) y (List.mem_cons_of_mem _ h2)

theorem foldl_pyMaxStepG_first {β : Type} [LinearOrder β] (f : String → β) :
    ∀ (xs : List String) (best : String) (as bs : List String),
      (best :: xs).Nodup →
      best :: xs = as ++ (xs.foldl (pyMaxStepG f) best) :: bs →
      ∀ y ∈ as, f y < f (xs.foldl (pyMaxStepG f) best) := by
  intro xs
  induction xs with
  | nil =>
    intro best as bs _ heq y hy
    simp only [List.foldl_nil] at heq ⊢
    rcases as with _ | ⟨a, as₂⟩
    · simp at hy
    · simp only [List.cons_append, List.cons.injEq] at heq
      have hlen := congrArg List.length heq.2
      simp only [List.length_nil, List.length_append, List.length_cons] at hlen
      omega
  | cons x xs ih =>
    intro best as bs hnd heq y hy
    simp only [List.foldl_cons] at heq ⊢
    rcases as with _ | ⟨a, as₂⟩
    · simp at hy
    · simp only [List.cons_append, List.cons.injEq] at heq
      obtain ⟨rfl, heq2⟩ := heq
      by_cases hc : f x > f best
      · have hstep : pyMaxStepG f best x = x := by unfold pyMaxStepG; rw [if_pos hc]
        rw [hstep] at heq2 ⊢
        rcases List.mem_cons.mp hy with h | hy2
        · rw [h]
          calc f best < f x := hc
            _ ≤ f (xs.foldl (pyMaxStepG f) x) := le_foldl_pyMaxStepG f xs x
        · exact ih x as₂ bs (List.Nodup.of_cons hnd) heq2 y hy2
      · have hstep : pyMaxStepG f best x = best := by unfold pyMaxStepG; rw [if_neg hc]
        rw [hstep] at heq2 ⊢
        rcases as₂ with _ | ⟨a₂, as₃⟩
        · exfalso
          simp only [List.nil_append, List.cons.injEq] at heq2
          obtain ⟨hxr, _⟩ := heq2
          have hrmem := foldl_pyMaxStepG_mem f xs best
          rw [← hxr] at hrmem
          simp only [List.nodup_cons, List.mem_cons] at hnd
          rcases List.mem_cons.mp hrmem with h | h
          · exact hnd.1 (Or.inl h.symm)
          · exact hnd.2.1 h
        · simp only [List.cons_append, List.cons.injEq] at heq2
          obtain ⟨hxa, heq3⟩ := heq2
          have hnd' : (best :: xs).Nodup := by
            have hsub : (best :: xs).Sublist (best :: x :: xs) :=
              (List.sublist_cons_self x xs).cons₂ best
            exact hnd.sublist hsub
          have harg : best :: xs = (best :: as₃) ++ (xs.foldl (pyMaxStepG f) best) :: bs := by
            rw [List.cons_append, ← heq3]
          have hIH := ih best (best :: as₃) bs hnd' harg
          rcases List.mem_cons.mp hy with h | hy2
          · rw [h]
            exact hIH best (by simp)
          rcases List.mem_cons.mp hy2 with h | hy3
          · rw [h, ← hxa]
            exact lt_of_le_of_lt (le_of_not_lt hc) (hIH best (by simp))
          · exact hIH y (by simp [hy3])

theorem find?_first_block {p : String → Bool} :
    ∀ (as : List String) (d : String) (bs : List String),
      p d = true → (∀ y ∈ as, p y = false) →
      (as ++ d :: bs).find? p = some d := by
  intro as
  induction as with
  | nil =>
    intro d bs hd _
    simpa using List.find?_cons_of_pos _ hd
  | cons a as ih =>
    intro d bs hd hall
    have ha : p a = false := hall a (by simp)
    simp only [List.cons_append]
    rw [List.find?_cons_of_neg _ (by simp [ha])]
    exact ih d bs hd (fun y hy => hall y (by simp [hy]))

theorem pyArgmaxG_emotionOrder_eq_specDominant {β : Type} [LinearOrder β]
    (f : String → β) : pyArgmaxG f emotionOrder = specDominant f := by
  have hrest : emotionOrder = "joy" :: ["sadness", "anger", "fear", "surprise", "love"] := rfl
  set rest : List String := ["sadness", "anger", "fear", "surprise", "love"] with hrestdef
  have hd : pyArgmaxG f emotionOrder = rest.foldl (pyMaxStepG f) "joy" := rfl
  set d := rest.foldl (pyMaxStepG f) "joy" with hddef
  have hmem : d ∈ emotionOrder := by
    rw [hrest]; exact foldl_pyMaxStepG_mem f rest "joy"
  have hmax : ∀ y ∈ emotionOrder, f y ≤ f d := by
    intro y hy
    rw [hrest] at hy
    exact all_le_foldl_pyMaxStepG f rest "joy" y hy
  obtain ⟨as, bs, hsplit⟩ := List.append_of_mem hmem
  have hfirst : ∀ y ∈ as, f y < f d := by
    intro y hy
    refine foldl_pyMaxStepG_first f rest "joy" as bs ?_ ?_ y hy
    · rw [← hrest]; decide
    · rw [← hrest, ← hddef]; exact hsplit
  have hpd : (fun e => emotionOrder.all (fun y => decide (f y ≤ f e))) d = true := by
    simp only [List.all_eq_true, decide_eq_true_eq]
    exact hmax
  have hpas : ∀ y ∈ as, (fun e => emotionOrder.all (fun y => decide (f y ≤ f e))) y = false := by
    intro y hy
    show (emotionOrder.all fun z => decide (f z ≤ f y)) = false
    rw [List.all_eq_false]
    exact ⟨d, hmem, by simp [not_le.mpr (hfirst y hy)]⟩
  unfold specDominant
  set p := (fun e => emotionOrder.all fun y => decide (f y ≤ f e)) with hp
  rw [hd, hsplit, find?_first_block as d bs hpd hpas]
  rfl

theorem foldl_pyMaxStepG_congr {β γ : Type} [LinearOrder β] [LinearOrder γ]
    (f : String → β) (g : String → γ)
    (hfg : ∀ a b : String, (f a < f b ↔ g a < g b)) :
    ∀ (xs : List String) (best : String),
      xs.foldl (pyMaxStepG f) best = xs.foldl (pyMaxStepG g) best := by
  intro xs
  induction xs with
  | nil => intro best; rfl
  | cons x xs ih =>
    intro best
    simp only [List.foldl_cons]
    have hstep : pyMaxStepG f best x = pyMaxStepG g best x := by
      unfold pyMaxStepG
      by_cases h : f best < f x
      · rw [if_pos h, if_pos ((hfg best x).mp h)]
      · rw [if_neg h, if_neg (fun hg => h ((hfg best x).mpr hg))]
    rw [hstep, ih]

theorem pyArgmaxG_congr {β γ : Type} [LinearOrder β] [LinearOrder γ]
    (f : String → β) (g : String → γ)
    (hfg : ∀ a b : String, (f a < f b ↔ g a < g b)) (l : List String) :
    pyArgmaxG f l = pyArgmaxG g l := by
  cases l with
  | nil => rfl
  | cons x xs => exact foldl_pyMaxStepG_congr f g hfg xs x

theorem lookup_keywords_length_le (e : String) :
    ((EMOTION_KEYWORDS.lookup e).getD []).length ≤ 6 := by
  simp only [EMOTION_KEYWORDS, List.lookup]
  repeat' split
  all_goals simp

theorem kwScore_le_six (text e : String) : kwScore text e ≤ 6 :=
  le_trans (List.length_filter_le _ _) (lookup_keywords_length_le e)

theorem totalRaw_le_36 (text : String) : totalRaw text ≤ 36 := by
  have h1 := kwScore_le_six text "joy"
  have h2 := kwScore_le_six text "sadness"
  have h3 := kwScore_le_six text "anger"
  have h4 := kwScore_le_six text "fear"
  have h5 := kwScore_le_six text "surprise"
  have h6 := kwScore_le_six text "love"
  simp only [totalRaw, emotionOrder, List.map, List.sum_cons, List.sum_nil]
  omega

theorem one_le_totalDiv (text : String) : 1 ≤ totalDiv text := by
  unfold totalDiv
  split_ifs with h
  · exact le_refl 1
  · omega

theorem totalDiv_le_100 (text : String) : totalDiv text ≤ 100 := by
  have := totalRaw_le_36 text
  unfold totalDiv
  split_ifs with h
  · omega
  · omega

theorem round2_div_strictMono {c₁ c₂ T : ℕ} (hT1 : 1 ≤ T) (hT2 : T ≤ 100)
    (hc : c₁ < c₂) :
    round2 ((c₁ : ℚ) / T * 100) < round2 ((c₂ : ℚ) / T * 100) := by
  have hTpos : (0:ℚ) < (T:ℚ) := by exact_mod_cast hT1
  have hT2q : (T:ℚ) ≤ 100 := by exact_mod_cast hT2
  have hcq : (c₁:ℚ) + 1 ≤ (c₂:ℚ) := by exact_mod_cast hc
  have hdiff : (c₁:ℚ)/T*100 + 1 ≤ (c₂:ℚ)/T*100 := by
    have hsub : (c₂:ℚ)/T*100 - (c₁:ℚ)/T*100 = ((c₂:ℚ)-(c₁:ℚ))*100/T := by ring
    have h1 : (1:ℚ) ≤ ((c₂:ℚ)-(c₁:ℚ))*100/T := by
      rw [le_div_iff hTpos]
      nlinarith
    linarith [hsub, h1]
  have hb1 := abs_le.mp (abs_pyRound_sub ((c₁:ℚ)/T*100 * 100))
  have hb2 := abs_le.mp (abs_pyRound_sub ((c₂:ℚ)/T*100 * 100))
  unfold round2
  rw [div_lt_div_iff (by norm_num : (0:ℚ) < 100) (by norm_num : (0:ℚ) < 100)]
  linarith [hb1.1, hb1.2, hb2.1, hb2.2]

theorem distribution_lt_iff (text a b : String) :
    distribution text a < distribution text b ↔ kwScore text a < kwScore text b := by
  have hT1 := one_le_totalDiv text
  have hT2 := totalDiv_le_100 text
  constructor
  · intro h
    by_contra hc
    push_neg at hc
    rcases eq_or_lt_of_le hc with heq | hlt
    · unfold distribution at h
      rw [heq] at h
      exact lt_irrefl _ h
    · exact absurd h (not_lt.mpr (le_of_lt (round2_div_strictMono hT1 hT2 hlt)))
  · exact round2_div_strictMono hT1 hT2

/-- The dominant emotion can be computed from the raw keyword counts:
rounding the percentages never reorders them (counts are at most 36 apart
over a denominator of at most 100, so distinct counts stay more than one
rounding step apart). -/
theorem analyze_emotion_eq_countArgmax (text : String) :
    analyze_emotion text = pyArgmaxG (fun e => kwScore text e) emotionOrder := by
  unfold analyze_emotion
  exact pyArgmaxG_congr (distribution text) (fun e => kwScore text e)
    (fun a b => distribution_lt_iff text a b) emotionOrder

theorem baseScore_eq_spec (e : String) : baseScore e = specBaseWeight e := by
  unfold baseScore specBaseWeight
  simp only [List.lookup]
  repeat' split
  all_goals simp_all

theorem mappedMood_mem (e : String) :
    mappedMood e ∈ (["happy", "sad", "angry", "neutral"] : List String) := by
  unfold mappedMood MOOD_MAPPING
  simp only [List.lookup]
  repeat' split
  all_goals simp

theorem round2_mem_unit {x : ℚ} (h0 : 0 ≤ x) (h1 : x ≤ 1) :
    0 ≤ round2 x ∧ round2 x ≤ 1 := by
  unfold round2
  have ha : (0:ℤ) ≤ pyRound (x*100) := pyRound_nonneg (by positivity)
  have hb : pyRound (x*100) ≤ (100 : ℤ) := pyRound_le_of_le (by push_cast; linarith)
  constructor
  · apply div_nonneg _ (by norm_num)
    exact_mod_cast ha
  · rw [div_le_one (by norm_num)]
    exact_mod_cast hb

theorem lookup_dictInsert_self (k : String) (v : ℚ) (d : List (String × ℚ)) :
    (dictInsert k v d).lookup k = some v := by
  induction d with
  | nil => simp [dictInsert, List.lookup]
  | cons p rest ih =>
    obtain ⟨k', v'⟩ := p
    unfold dictInsert
    split_ifs with h
    · simp [List.lookup]
    · have hne : k ≠ k' := fun he => h he.symm
      simp [List.lookup, beq_eq_false_iff_ne.mpr hne, ih]

theorem lookup_dictInsert_ne (k : String) (v : ℚ) (k' : String)
    (d : List (String × ℚ)) (h : k' ≠ k) :
    (dictInsert k v d).lookup k' = d.lookup k' := by
  induction d with
  | nil => simp [dictInsert, List.lookup, beq_eq_false_iff_ne.mpr h]
  | cons p rest ih =>
    obtain ⟨k'', v''⟩ := p
    unfold dictInsert
    split_ifs with h2
    · subst h2
      simp [List.lookup, beq_eq_false_iff_ne.mpr h]
    · by_cases h3 : k' = k''
      · subst h3
        simp [List.lookup]
      · simp [List.lookup, beq_eq_false_iff_ne.mpr h3, ih]

theorem reSplit_ne_nil (p : Char → Bool) : ∀ l : List Char, reSplit p l ≠ [] := by
  intro l
  induction l with
  | nil => simp [reSplit]
  | cons c cs ih =>
    unfold reSplit
    split_ifs with h
    · match cs with
      | [] => simp
      | d :: ds =>
        simp only []
        split_ifs with h2
        · exact ih
        · simp
    · match hr : reSplit p cs with
      | [] => simp
      | t :: ts => simp

theorem round2_zero : round2 0 = 0 := by
  unfold round2 pyRound
  norm_num

theorem abs_round2_sub (x : ℚ) : |round2 x - x| ≤ 1/200 := by
  unfold round2
  have h := abs_le.mp (abs_pyRound_sub (x * 100))
  rw [abs_le]
  constructor <;> [linarith [h.1]; linarith [h.2]]

theorem round2_eq_of_mul_intCast {x : ℚ} {n : ℤ} (h : x * 100 = (n : ℚ)) :
    round2 x = (n : ℚ) / 100 := by
  unfold round2
  rw [h, pyRound_intCast]

theorem distribution_of_kwScore_zero {text e : String} (h : kwScore text e = 0) :
    distribution text e = 0 := by
  unfold distribution
  rw [h]
  push_cast
  rw [zero_div, zero_mul, round2_zero]

/-- C2: for every input string the classifier assigns each taxonomy emotion
the value `round(count/total * 100, 2)` where `total = sum(counts) or 1`;
when at least one keyword matches, the six distribution values sum to 100
within ±0.1, and otherwise they are all exactly 0. -/
theorem C2_distribution_values (text : String) :
    (∀ e : String, distribution text e
        = round2 ((kwScore text e : ℚ) / (totalDiv text : ℚ) * 100)) ∧
    totalDiv text = (if totalRaw text = 0 then 1 else totalRaw text) ∧
    (totalRaw text ≠ 0 →
      |(emotionOrder.map (distribution text)).sum - 100| ≤ 1/10) ∧
    (totalRaw text = 0 →
      emotionOrder.map (distribution text) = [0, 0, 0, 0, 0, 0]) := by
  refine ⟨fun e => rfl, rfl, ?_, ?_⟩
  · intro h
    have hT : (totalDiv text : ℚ) = (totalRaw text : ℚ) := by
      unfold totalDiv
      rw [if_neg h]
    have hTne : (totalRaw text : ℚ) ≠ 0 := Nat.cast_ne_zero.mpr h
    have hts : totalRaw text = kwScore text "joy" + kwScore text "sadness"
        + kwScore text "anger" + kwScore text "fear" + kwScore text "surprise"
        + kwScore text "love" := by
      simp only [totalRaw, emotionOrder, List.map_cons, List.map_nil,
        List.sum_cons, List.sum_nil]
      omega
    have hcast : (kwScore text "joy" : ℚ) + kwScore text "sadness"
        + kwScore text "anger" + kwScore text "fear" + kwScore text "surprise"
        + kwScore text "love" = (totalRaw text : ℚ) := by
      rw [hts]
      push_cast
      ring
    have hsum : ((kwScore text "joy" : ℚ) / (totalDiv text) * 100)
        + ((kwScore text "sadness" : ℚ) / (totalDiv text) * 100)
        + ((kwScore text "anger" : ℚ) / (totalDiv text) * 100)
        + ((kwScore text "fear" : ℚ) / (totalDiv text) * 100)
        + ((kwScore text "surprise" : ℚ) / (totalDiv text) * 100)
        + ((kwScore text "love" : ℚ) / (totalDiv text) * 100) = 100 := by
      rw [hT]
      have hfold : ((kwScore text "joy" : ℚ) / (totalRaw text) * 100)
          + ((kwScore text "sadness" : ℚ) / (totalRaw text) * 100)
          + ((kwScore text "anger" : ℚ) / (totalRaw text) * 100)
          + ((kwScore text "fear" : ℚ) / (totalRaw text) * 100)
          + ((kwScore text "surprise" : ℚ) / (totalRaw text) * 100)
          + ((kwScore text "love" : ℚ) / (totalRaw text) * 100)
          = ((kwScore text "joy" : ℚ) + kwScore text "sadness"
            + kwScore text "anger" + kwScore text "fear"
            + kwScore text "surprise" + kwScore text "love")
            / (totalRaw text) * 100 := by ring
      rw [hfold, hcast, div_self hTne, one_mul]
    have b1 := abs_le.mp (abs_round2_sub ((kwScore text "joy" : ℚ) / (totalDiv text) * 100))
    have b2 := abs_le.mp (abs_round2_sub ((kwScore text "sadness" : ℚ) / (totalDiv text) * 100))
    have b3 := abs_le.mp (abs_round2_sub ((kwScore text "anger" : ℚ) / (totalDiv text) * 100))
    have b4 := abs_le.mp (abs_round2_sub ((kwScore text "fear" : ℚ) / (totalDiv text) * 100))
    have b5 := abs_le.mp (abs_round2_sub ((kwScore text "surprise" : ℚ) / (totalDiv text) * 100))
    have b6 := abs_le.mp (abs_round2_sub ((kwScore text "love" : ℚ) / (totalDiv text) * 100))
    simp only [emotionOrder, List.map_cons, List.map_nil, List.sum_cons,
      List.sum_nil, distribution]
    rw [abs_le]
    constructor
    · linarith [b1.1, b2.1, b3.1, b4.1, b5.1, b6.1]
    · linarith [b1.2, b2.2, b3.2, b4.2, b5.2, b6.2]
  · intro h
    have hz : ∀ e ∈ emotionOrder, kwScore text e = 0 := by
      intro e he
      exact (List.sum_eq_zero_iff.mp h) _ (List.mem_map_of_mem _ he)
    simp only [emotionOrder, List.map_cons, List.map_nil]
    rw [distribution_of_kwScore_zero (hz "joy" (by decide)),
      distribution_of_kwScore_zero (hz "sadness" (by decide)),
      distribution_of_kwScore_zero (hz "anger" (by decide)),
      distribution_of_kwScore_zero (hz "fear" (by decide)),
      distribution_of_kwScore_zero (hz "surprise" (by decide)),
      distribution_of_kwScore_zero (hz "love" (by decide))]

/-- C2 witness: a text with a keyword match (the sum bound holds there) and
one with none (the distribution is all-zero there). -/
theorem C2_distribution_values_witness :
    (totalRaw "happy" ≠ 0 ∧
      |(emotionOrder.map (distribution "happy")).sum - 100| ≤ 1/10) ∧
    (totalRaw "xyz" = 0 ∧
      emotionOrder.map (distribution "xyz") = [0, 0, 0, 0, 0, 0]) :=
  ⟨⟨by decide, (C2_distribution_values "happy").2.2.1 (by decide)⟩,
   ⟨by decide, (C2_distribution_values "xyz").2.2.2 (by decide)⟩⟩

/-- C6: the classifier is total — the division denominator is the guarded
`sum or 1`, hence at least 1 — its dominant emotion is the first emotion in
the taxonomy's insertion order (joy, sadness, anger, fear, surprise, love)
attaining the maximum distribution value, and on the empty string it
returns dominant `"joy"` with an all-zero distribution. -/
theorem C6_classifier_total_and_tiebreak (text : String) :
    1 ≤ totalDiv text ∧
    analyze_emotion text = specDominant (distribution text) ∧
    analyze_emotion "" = "joy" ∧
    emotionOrder.map (distribution "") = [0, 0, 0, 0, 0, 0] := by
  refine ⟨one_le_totalDiv text, ?_, ?_, ?_⟩
  · exact pyArgmaxG_emotionOrder_eq_specDominant (distribution text)
  · rw [analyze_emotion_eq_countArgmax]
    decide
  · simp only [emotionOrder, List.map_cons, List.map_nil]
    rw [distribution_of_kwScore_zero (show kwScore "" "joy" = 0 by decide),
      distribution_of_kwScore_zero (show kwScore "" "sadness" = 0 by decide),
      distribution_of_kwScore_zero (show kwScore "" "anger" = 0 by decide),
      distribution_of_kwScore_zero (show kwScore "" "fear" = 0 by decide),
      distribution_of_kwScore_zero (show kwScore "" "surprise" = 0 by decide),
      distribution_of_kwScore_zero (show kwScore "" "love" = 0 by decide)]

/-- C3: the mood score equals `round(clamp(0,1, base*0.6 + ((s+1)/2)*0.4), 2)`
with the spec's fixed base table (joy 0.8, love 0.9, surprise 0.6,
sadness 0.2, anger 0.1, fear 0.3, otherwise 0.5), and always lies in
[0, 1]. -/
theorem C3_mood_score_formula_and_range (e : String) (s : ℚ) :
    calculate_mood_score e s
      = round2 (specClamp01 (specBaseWeight e * 0.6 + (s + 1) / 2 * 0.4)) ∧
    0 ≤ calculate_mood_score e s ∧ calculate_mood_score e s ≤ 1 := by
  have hb := round2_mem_unit
    (x := max 0 (min 1 (baseScore e * 0.6 + (s + 1) / 2 * 0.4)))
    (le_max_left _ _)
    (max_le (by norm_num) (min_le_left _ _))
  refine ⟨?_, hb.1, hb.2⟩
  unfold calculate_mood_score specClamp01
  rw [baseScore_eq_spec]

/-- C4 counterexample: on the input `"surprised"` (dominant emotion
`surprise`, winning mood `neutral`) with sentiment score 0, the dict
literal's later `"neutral"` entry overwrites the winning-mood entry: the
winning mood's stored value is `1 - |0| = 1`, not the mood score 0.56, so
the four required entries do not all hold simultaneously. -/
theorem C4_counterexample :
    dominant_mood "surprised" = "neutral" ∧
    calculate_mood_score (analyze_emotion "surprised") 0 = 14/25 ∧
    (analyze_mood_scores "surprised" 0).lookup (dominant_mood "surprised")
      = some 1 ∧
    ((1 : ℚ) == (14/25 : ℚ)) = false := by
  have he : analyze_emotion "surprised" = "surprise" := by
    rw [analyze_emotion_eq_countArgmax]
    decide
  have hd : dominant_mood "surprised" = "neutral" := by
    rw [dominant_mood, he]
    decide
  have hbase : baseScore "surprise" = 0.6 := by
    rw [baseScore_eq_spec]
    unfold specBaseWeight
    rw [if_neg (by decide : ¬("surprise" : String) = "joy"),
      if_neg (by decide : ¬("surprise" : String) = "love"), if_pos rfl]
  have hms : calculate_mood_score (analyze_emotion "surprised") 0 = 14/25 := by
    rw [he]
    unfold calculate_mood_score
    rw [hbase]
    norm_num
    rw [round2_eq_of_mul_intCast (n := 56) (by norm_num)]
    norm_num
  refine ⟨hd, hms, ?_, by norm_num⟩
  rw [hd]
  unfold analyze_mood_scores mood_scores_dict
  rw [lookup_dictInsert_self]
  norm_num

/-- C4 (amended): for every text and sentiment score the `mood_scores` map
contains `positive ↦ max(0,s)`, `negative ↦ max(0,-s)` and
`neutral ↦ 1 - |s|`; the winning-mood entry equals the mood score whenever
the winning mood is not itself `"neutral"`, and otherwise the `"neutral"`
value `1 - |s|` has overwritten it. -/
theorem C4_mood_scores_entries (text : String) (s : ℚ) :
    (analyze_mood_scores text s).lookup "positive" = some (max 0 s) ∧
    (analyze_mood_scores text s).lookup "negative" = some (max 0 (-s)) ∧
    (analyze_mood_scores text s).lookup "neutral" = some (1 - |s|) ∧
    (analyze_mood_scores text s).lookup (dominant_mood text)
      = some (if dominant_mood text = "neutral" then 1 - |s|
              else calculate_mood_score (analyze_emotion text) s) := by
  have hmem := mappedMood_mem (analyze_emotion text)
  have hmem' : dominant_mood text = "happy" ∨ dominant_mood text = "sad"
      ∨ dominant_mood text = "angry" ∨ dominant_mood text = "neutral" := by
    simpa [dominant_mood] using hmem
  unfold analyze_mood_scores mood_scores_dict
  refine ⟨?_, ?_, ?_, ?_⟩
  · rw [lookup_dictInsert_ne _ _ _ _ (by decide),
      lookup_dictInsert_ne _ _ _ _ (by decide),
      lookup_dictInsert_self]
  · rw [lookup_dictInsert_ne _ _ _ _ (by decide), lookup_dictInsert_self]
  · rw [lookup_dictInsert_self]
  · by_cases hn : dominant_mood text = "neutral"
    · rw [if_pos hn, hn, lookup_dictInsert_self]
    · have hp : dominant_mood text ≠ "positive" := by
        rcases hmem' with h | h | h | h <;> simp [h]
      have hng : dominant_mood text ≠ "negative" := by
        rcases hmem' with h | h | h | h <;> simp [h]
      rw [if_neg hn,
        lookup_dictInsert_ne _ _ _ _ hn,
        lookup_dictInsert_ne _ _ _ _ hng,
        lookup_dictInsert_ne _ _ _ _ hp,
        lookup_dictInsert_self]

/-- C9 counterexample: a request carrying the non-taxonomy mood `"banana"`
is persisted verbatim — `save_entry` does not validate the client mood. -/
theorem C9_counterexample :
    savedMood (some "banana") "hello" = "banana" ∧
    (moodTaxonomy.contains "banana") = false := by
  constructor
  · rfl
  · decide

/-- C9 (amended): the mood derived from the classifier always lies in the
fixed taxonomy (the emotion→mood table's values plus the `neutral`
fallback), so the persisted mood is in the taxonomy whenever the request
mood is absent or empty; a non-empty client mood is stored verbatim, so in
general the stored mood is in the taxonomy or is the client's own string. -/
theorem C9_saved_mood_taxonomy (text : String) (reqMood : Option String) :
    dominant_mood text ∈ moodTaxonomy ∧
    savedMood none text ∈ moodTaxonomy ∧
    savedMood (some "") text ∈ moodTaxonomy ∧
    (savedMood reqMood text ∈ moodTaxonomy ∨
      savedMood reqMood text = reqMood.getD "") := by
  have hmem : dominant_mood text ∈ moodTaxonomy := by
    have := mappedMood_mem (analyze_emotion text)
    have h4 : dominant_mood text = "happy" ∨ dominant_mood text = "sad"
        ∨ dominant_mood text = "angry" ∨ dominant_mood text = "neutral" := by
      simpa [dominant_mood] using this
    rcases h4 with h | h | h | h <;> simp [h, moodTaxonomy]
  refine ⟨hmem, hmem, by simpa [savedMood] using hmem, ?_⟩
  match reqMood with
  | none => exact Or.inl hmem
  | some m =>
    by_cases hm : m = ""
    · subst hm
      exact Or.inl (by simpa [savedMood] using hmem)
    · right
      simp [savedMood, hm]

/-- C5: `re.split` always returns at least one piece, so the
`if not sentences` placeholder guard of `summarize_text` is dead code; on
the empty input the code returns `"."` — the empty first piece with the
period appended — instead of the documented `"No summary available"`
placeholder; the normal path (spec's example) is unaffected. -/
theorem C5_summarize_empty_input (text : String) :
    (reSplit isTerm (pyStrip text.toList)).isEmpty = false ∧
    summarize_text "" 15 = "." ∧
    ((summarize_text "" 15 == "No summary available") = false) ∧
    summarize_text "I had a great day today. It was sunny." 15
      = "I had a great day today." := by
  refine ⟨?_, by decide, by decide, by decide⟩
  have hne := reSplit_ne_nil isTerm (pyStrip text.toList)
  cases hr : reSplit isTerm (pyStrip text.toList) with
  | nil => exact absurd hr hne
  | cons t ts => rfl

theorem foldl_firstKeys_mem :
    ∀ (l : List String) (acc : List String) (x : String),
      x ∈ l.foldl (fun acc w => if w ∈ acc then acc else acc ++ [w]) acc →
      x ∈ acc ∨ x ∈ l := by
  intro l
  induction l with
  | nil => intro acc x h; exact Or.inl h
  | cons w l ih =>
    intro acc x h
    simp only [List.foldl_cons] at h
    rcases ih _ x h with h2 | h2
    · by_cases hw : w ∈ acc
      · rw [if_pos hw] at h2
        exact Or.inl h2
      · rw [if_neg hw] at h2
        rcases List.mem_append.mp h2 with h3 | h3
        · exact Or.inl h3
        · simp at h3
          exact Or.inr (by simp [h3])
    · exact Or.inr (List.mem_cons_of_mem _ h2)

theorem firstKeys_subset {l : List String} {x : String} (h : x ∈ firstKeys l) :
    x ∈ l := by
  rcases foldl_firstKeys_mem l [] x h with h2 | h2
  · simp at h2
  · exact h2

/-- C7 counterexample: on the spec's own example input every non-stop-word
token (`cat`, `sat`, `mat`, `ran`) has exactly 3 characters and the filter
keeps only tokens strictly longer than 3, so the extractor returns the
empty list and `"cat"` does not rank first. -/
theorem C7_counterexample :
    extract_keywords "the cat sat on the mat and the cat ran" 5 = [] ∧
    ((extract_keywords "the cat sat on the mat and the cat ran" 5).contains "cat")
      = false := by
  exact ⟨by decide, by decide⟩

/-- C7 (amended): `extract_keywords` cleans and tokenizes the text,
discards stop words and tokens of three or fewer characters, and returns
the first `topN` entries of the counter items stably sorted by count
descending; every returned keyword is a surviving token, at most `topN`
are returned, the ranking is sorted by count, and each ranked pair carries
the token's true occurrence count.  On the spec's example input all
non-stop-word tokens have exactly 3 characters, so the result is empty
(rather than ranking `"cat"` first). -/
theorem C7_extract_keywords (text : String) (topN : ℕ) :
    extract_keywords "the cat sat on the mat and the cat ran" 5 = [] ∧
    (extract_keywords text topN).length ≤ topN ∧
    (∀ w ∈ extract_keywords text topN,
      3 < w.length ∧ w ∉ stop_words ∧ w ∈ keywordTokens text) ∧
    (List.insertionSort rankRel (counterPairs (keywordTokens text))).Sorted rankRel ∧
    (∀ p ∈ List.insertionSort rankRel (counterPairs (keywordTokens text)),
      p.2 = (keywordTokens text).count p.1) ∧
    extract_keywords text topN
      = ((List.insertionSort rankRel (counterPairs (keywordTokens text))).take
          topN).map Prod.fst := by
  refine ⟨by decide, ?_, ?_, ?_, ?_, rfl⟩
  · simp only [extract_keywords, most_common, List.length_map]
    exact le_trans (List.length_take_le _ _) (le_refl _)
  · intro w hw
    simp only [extract_keywords, most_common, List.mem_map] at hw
    obtain ⟨p, hp, hpw⟩ := hw
    have hp2 : p ∈ List.insertionSort rankRel (counterPairs (keywordTokens text)) :=
      List.mem_of_mem_take hp
    have hp3 : p ∈ counterPairs (keywordTokens text) :=
      (List.perm_insertionSort rankRel _).mem_iff.mp hp2
    simp only [counterPairs, List.mem_map] at hp3
    obtain ⟨w', hw', hpw'⟩ := hp3
    have hww : w = w' := by rw [← hpw, ← hpw']
    subst hww
    have htok : w ∈ keywordTokens text := firstKeys_subset hw'
    have hfil := htok
    simp only [keywordTokens, List.mem_filter, decide_eq_true_eq] at hfil
    exact ⟨hfil.2.1, hfil.2.2, htok⟩
  · exact List.sorted_insertionSort rankRel _
  · intro p hp
    have hp3 : p ∈ counterPairs (keywordTokens text) :=
      (List.perm_insertionSort rankRel _).mem_iff.mp hp
    simp only [counterPairs, List.mem_map] at hp3
    obtain ⟨w', _, hpw'⟩ := hp3
    rw [← hpw']

/-- C7 witness: a concrete input where the extractor does return a keyword
and the filter facts are discharged at it. -/
theorem C7_extract_keywords_witness :
    3 < ("abcd" : String).length ∧ "abcd" ∉ stop_words ∧
      "abcd" ∈ keywordTokens "abcd abcd xy stuff" :=
  (C7_extract_keywords "abcd abcd xy stuff" 8).2.2.1 "abcd" (by decide)

theorem insightsLoop_filter (parse : String → Option ℤ) (label : ℤ → String) :
    ∀ es : List StoredEntry,
      insightsLoop parse label es
        = insightsLoop parse label
            (es.filter (fun e => (parse e.datetime).isSome)) := by
  intro es
  induction es with
  | nil => rfl
  | cons e es ih =>
    cases hp : parse e.datetime with
    | none => simp [insightsLoop, List.filter_cons, hp, ih]
    | some d => simp [insightsLoop, List.filter_cons, hp, ← ih]

theorem filterMap_filter_isSome (parse : String → Option ℤ)
    (es : List StoredEntry) :
    (es.filter (fun e => (parse e.datetime).isSome)).filterMap
        (fun e => parse e.datetime)
      = es.filterMap (fun e => parse e.datetime) := by
  induction es with
  | nil => rfl
  | cons e es ih =>
    cases hp : parse e.datetime with
    | none => simp [List.filter_cons, List.filterMap_cons, hp, ih]
    | some d => simp [List.filter_cons, List.filterMap_cons, hp, ih]

theorem streakOfEntries_filter (parse : String → Option ℤ) (today : ℤ)
    (entries : List StoredEntry) :
    streakOfEntries parse today entries
      = streakOfEntries parse today
          (entries.filter (fun e => (parse e.datetime).isSome)) := by
  unfold streakOfEntries
  rw [filterMap_filter_isSome]
  by_cases h1 : entries.isEmpty
  · have he : entries = [] := List.isEmpty_iff.mp h1
    subst he
    rfl
  · rw [if_neg (by simpa using h1)]
    by_cases h2 : (entries.filterMap (fun e => parse e.datetime)).isEmpty
    · rw [if_pos h2]
      split_ifs with h3
      · rfl
      · rfl
    · rw [if_neg h2]
      split_ifs with h3
      · exfalso
        have he : entries.filter (fun e => (parse e.datetime).isSome) = [] :=
          List.isEmpty_iff.mp h3
        have : entries.filterMap (fun e => parse e.datetime) = [] := by
          rw [← filterMap_filter_isSome, he]
          rfl
        rw [this] at h2
        exact h2 rfl
      · rfl

/-- C8: in both the streak computation and the trend/insights computation,
a stored entry whose timestamp fails to parse (`parse` returns `none`,
modelling the swallowed per-entry exception) is skipped silently: the
result over any entry list equals the result over the sublist of entries
with parseable timestamps, for every parse function, so the aggregate is
computed from the remaining entries and the computation is total. -/
theorem C8_malformed_entries_skipped (parse : String → Option ℤ)
    (label : ℤ → String) (today : ℤ) (entries : List StoredEntry) :
    streakOfEntries parse today entries
      = streakOfEntries parse today
          (entries.filter (fun e => (parse e.datetime).isSome)) ∧
    get_insights parse label entries
      = get_insights parse label
          (entries.filter (fun e => (parse e.datetime).isSome)) := by
  refine ⟨streakOfEntries_filter parse today entries, ?_⟩
  unfold get_insights
  rw [← insightsLoop_filter]

theorem countConsec_le_length : ∀ (t : ℤ) (ds : List ℤ),
    countConsec t ds ≤ ds.length := by
  intro t ds
  induction ds generalizing t with
  | nil => simp [countConsec]
  | cons d ds ih =>
    unfold countConsec
    split_ifs with h
    · have := ih (t - 1)
      simp only [List.length_cons]
      omega
    · simp

/-- C10: the streak never exceeds 30 (and is a natural number, hence at
least 0): the fetch takes at most the 30 most recent documents, so at most
30 parsed dates — and after deduplication at most 30 distinct calendar
days — can take part in the consecutive-day count, whatever the store
holds and however many consecutive days the user journaled. -/
theorem C10_streak_at_most_30 (parse : String → Option ℤ) (today : ℤ)
    (store : List StoredEntry) :
    get_user_streak parse today store ≤ 30 := by
  unfold get_user_streak streakOfEntries
  split_ifs with h1 h2
  · omega
  · omega
  · have hc := countConsec_le_length today
      (List.insertionSort (fun a b : ℤ => b ≤ a)
        (((sortByDatetimeDesc store).take 30).filterMap
          (fun e => parse e.datetime)).dedup)
    have hlen : (List.insertionSort (fun a b : ℤ => b ≤ a)
        (((sortByDatetimeDesc store).take 30).filterMap
          (fun e => parse e.datetime)).dedup).length
        = (((sortByDatetimeDesc store).take 30).filterMap
          (fun e => parse e.datetime)).dedup.length :=
      (List.perm_insertionSort _ _).length_eq
    have hdl : (((sortByDatetimeDesc store).take 30).filterMap
        (fun e => parse e.datetime)).dedup.length
        ≤ (((sortByDatetimeDesc store).take 30).filterMap
          (fun e => parse e.datetime)).length :=
      (List.dedup_sublist _).length_le
    have hfm : (((sortByDatetimeDesc store).take 30).filterMap
        (fun e => parse e.datetime)).length
        ≤ ((sortByDatetimeDesc store).take 30).length :=
      List.length_filterMap_le _ _
    have htk : ((sortByDatetimeDesc store).take 30).length ≤ 30 := by
      rw [List.length_take]
      exact min_le_left _ _
    omega

theorem toFinset_eq_of_perm {l₁ l₂ : List ℤ} (h : l₁.Perm l₂) :
    l₁.toFinset = l₂.toFinset := by
  ext x
  simp [List.mem_toFinset, h.mem_iff]

theorem toFinset_dedup_eq (l : List ℤ) : l.dedup.toFinset = l.toFinset := by
  ext x
  simp [List.mem_toFinset, List.mem_dedup]

theorem countConsec_three (t : ℤ) : countConsec t [t, t - 1, t - 2] = 3 := by
  have h2 : t - 1 - 1 = t - 2 := by ring
  simp [countConsec, h2]

theorem sorted_desc_nodup_toFinset_three {u : List ℤ} {t : ℤ}
    (hs : u.Sorted (fun a b : ℤ => b ≤ a)) (hn : u.Nodup)
    (hf : u.toFinset = ({t, t - 1, t - 2} : Finset ℤ)) :
    u = [t, t - 1, t - 2] := by
  have hcard : ({t, t - 1, t - 2} : Finset ℤ).card = 3 := by
    rw [Finset.card_insert_of_not_mem
        (by simp only [Finset.mem_insert, Finset.mem_singleton]; omega),
      Finset.card_insert_of_not_mem (by simp only [Finset.mem_singleton]; omega),
      Finset.card_singleton]
  have hlen : u.length = 3 := by
    rw [← List.toFinset_card_of_nodup hn, hf, hcard]
  match u, hs, hn, hf, hlen with
  | [a, b, c], hs, hn, hf, _ =>
    have hsorted : (b ≤ a ∧ c ≤ a) ∧ c ≤ b := by
      simpa [List.sorted_cons] using hs
    have hnodup : (a ≠ b ∧ a ≠ c) ∧ b ≠ c := by
      simpa [List.nodup_cons] using hn
    have hma : a ∈ ({t, t - 1, t - 2} : Finset ℤ) := by
      rw [← hf]; simp
    have hmb : b ∈ ({t, t - 1, t - 2} : Finset ℤ) := by
      rw [← hf]; simp
    have hmc : c ∈ ({t, t - 1, t - 2} : Finset ℤ) := by
      rw [← hf]; simp
    simp only [Finset.mem_insert, Finset.mem_singleton] at hma hmb hmc
    have : a = t ∧ b = t - 1 ∧ c = t - 2 := by omega
    simp [this.1, this.2.1, this.2.2]

theorem streakOfEntries_zero_of_not_mem (parse : String → Option ℤ)
    (today : ℤ) (entries : List StoredEntry)
    (h : today ∉ (entries.filterMap (fun e => parse e.datetime)).toFinset) :
    streakOfEntries parse today entries = 0 := by
  unfold streakOfEntries
  split_ifs with h1 h2
  · rfl
  · rfl
  · cases hu : List.insertionSort (fun a b : ℤ => b ≤ a)
        ((entries.filterMap (fun e => parse e.datetime)).dedup) with
    | nil => rfl
    | cons d ds =>
      have hdm : d ∈ List.insertionSort (fun a b : ℤ => b ≤ a)
          ((entries.filterMap (fun e => parse e.datetime)).dedup) := by
        rw [hu]
        simp
      have hd2 : d ∈ entries.filterMap (fun e => parse e.datetime) :=
        List.mem_dedup.mp ((List.perm_insertionSort (fun a b : ℤ => b ≤ a) _).mem_iff.mp hdm)
      have hne : d ≠ today := by
        intro he
        exact h (by rw [← he]; exact List.mem_toFinset.mpr hd2)
      simp [countConsec, hne]

theorem window_dates_subset (parse : String → Option ℤ)
    (store : List StoredEntry) :
    ∀ d ∈ ((sortByDatetimeDesc store).take 30).filterMap
        (fun e => parse e.datetime),
      d ∈ store.filterMap (fun e => parse e.datetime) := by
  intro d hd
  rw [List.mem_filterMap] at hd ⊢
  obtain ⟨e, he, hpe⟩ := hd
  refine ⟨e, ?_, hpe⟩
  exact (List.perm_insertionSort dtDesc store).mem_iff.mp (List.mem_of_mem_take he)

theorem get_user_streak_zero_of_today_not_mem (parse : String → Option ℤ)
    (today : ℤ) (store : List StoredEntry)
    (h : today ∉ (store.filterMap (fun e => parse e.datetime)).toFinset) :
    get_user_streak parse today store = 0 := by
  unfold get_user_streak
  apply streakOfEntries_zero_of_not_mem
  intro hmem
  apply h
  rw [List.mem_toFinset] at hmem ⊢
  exact window_dates_subset parse store today hmem

/-- C1 (amended): for a user with at most 30 stored entries whose parsed
entry dates are exactly {today, today-1, today-2} (hence a gap at today-3)
the streak is 3; when no entry falls on today — in particular when neither
today nor yesterday has one — the streak is 0 regardless of older entries;
and when the entries fall exactly on yesterday the streak is 0.  The
at-most-30-entries proviso is forced by the fetch window (see the
counterexample); `parse` is the external timestamp parser and `today` the
process-clock date. -/
theorem C1_streak_scenarios (parse : String → Option ℤ) (today : ℤ)
    (store : List StoredEntry) :
    (store.length ≤ 30 →
      (store.filterMap (fun e => parse e.datetime)).toFinset
          = ({today, today - 1, today - 2} : Finset ℤ) →
      get_user_streak parse today store = 3) ∧
    (today ∉ (store.filterMap (fun e => parse e.datetime)).toFinset →
      today - 1 ∉ (store.filterMap (fun e => parse e.datetime)).toFinset →
      get_user_streak parse today store = 0) ∧
    ((store.filterMap (fun e => parse e.datetime)).toFinset
        = ({today - 1} : Finset ℤ) →
      get_user_streak parse today store = 0) := by
  refine ⟨?_, ?_, ?_⟩
  · intro hlen hset
    have hsl : (sortByDatetimeDesc store).length = store.length :=
      (List.perm_insertionSort dtDesc store).length_eq
    have hwin : (sortByDatetimeDesc store).take 30 = sortByDatetimeDesc store :=
      List.take_of_length_le (by omega)
    have hperm : ((sortByDatetimeDesc store).take 30).Perm store := by
      rw [hwin]
      exact List.perm_insertionSort dtDesc store
    have hdperm : (((sortByDatetimeDesc store).take 30).filterMap
        (fun e => parse e.datetime)).Perm
        (store.filterMap (fun e => parse e.datetime)) := hperm.filterMap _
    have hdset : (((sortByDatetimeDesc store).take 30).filterMap
        (fun e => parse e.datetime)).toFinset
        = ({today, today - 1, today - 2} : Finset ℤ) := by
      rw [toFinset_eq_of_perm hdperm, hset]
    have hdne : ¬ (((sortByDatetimeDesc store).take 30).filterMap
        (fun e => parse e.datetime)).isEmpty = true := by
      intro hemp
      have hnil : (((sortByDatetimeDesc store).take 30).filterMap
          (fun e => parse e.datetime)) = [] := List.isEmpty_iff.mp hemp
      rw [hnil] at hdset
      have hm : today ∈ ({today, today - 1, today - 2} : Finset ℤ) := by simp
      rw [← hdset] at hm
      simp at hm
    have hene : ¬ ((sortByDatetimeDesc store).take 30).isEmpty = true := by
      intro hemp
      rw [List.isEmpty_iff.mp hemp] at hdne
      exact hdne rfl
    unfold get_user_streak streakOfEntries
    rw [if_neg hene, if_neg hdne]
    have hu := sorted_desc_nodup_toFinset_three
      (u := List.insertionSort (fun a b : ℤ => b ≤ a)
        ((((sortByDatetimeDesc store).take 30).filterMap
          (fun e => parse e.datetime)).dedup))
      (t := today)
      (List.sorted_insertionSort _ _)
      ((List.perm_insertionSort _ _).nodup_iff.mpr (List.nodup_dedup _))
      (by rw [toFinset_eq_of_perm (List.perm_insertionSort _ _),
          toFinset_dedup_eq, hdset])
    rw [hu, countConsec_three]
  · intro h _
    exact get_user_streak_zero_of_today_not_mem parse today store h
  · intro hset
    apply get_user_streak_zero_of_today_not_mem
    rw [hset]
    simp only [List.mem_toFinset, Finset.mem_singleton]
    omega

/-- C1 counterexample: with `today` = 2025-06-10, this user's entries fall
on exactly the dates {today, today-1, today-2} with a gap at today-3, yet
the streak is 1, not 3: the 30-entry fetch window is filled by the 31
same-day entries and never sees the two older days. -/
theorem C1_counterexample :
    (cexStore.filterMap (fun e => isoDate e.datetime)).toFinset
        = ({daysFromCivil 2025 6 10, daysFromCivil 2025 6 10 - 1,
            daysFromCivil 2025 6 10 - 2} : Finset ℤ) ∧
    get_user_streak isoDate (daysFromCivil 2025 6 10) cexStore = 1 ∧
    ((get_user_streak isoDate (daysFromCivil 2025 6 10) cexStore == 3)
      = false) := by
  exact ⟨by decide, by decide, by decide⟩

/-- C1 witness: the three scenarios of the amended claim discharged at
concrete stores (a one-entry-per-day three-day run; a store with entries
on neither today nor yesterday; a yesterday-only store). -/
theorem C1_streak_scenarios_witness :
    get_user_streak (fun s => some ((s.length : ℤ))) 3
        [⟨"aaa", "neutral", [], 0, []⟩, ⟨"aa", "neutral", [], 0, []⟩,
          ⟨"a", "neutral", [], 0, []⟩] = 3 ∧
    get_user_streak (fun s => some ((s.length : ℤ))) 5
        [⟨"a", "neutral", [], 0, []⟩] = 0 ∧
    get_user_streak (fun s => some ((s.length : ℤ))) 3
        [⟨"aa", "neutral", [], 0, []⟩] = 0 :=
  ⟨(C1_streak_scenarios (fun s => some ((s.length : ℤ))) 3
      [⟨"aaa", "neutral", [], 0, []⟩, ⟨"aa", "neutral", [], 0, []⟩,
        ⟨"a", "neutral", [], 0, []⟩]).1 (by decide) (by decide),
    (C1_streak_scenarios (fun s => some ((s.length : ℤ))) 5
      [⟨"a", "neutral", [], 0, []⟩]).2.1 (by decide) (by decide),
    (C1_streak_scenarios (fun s => some ((s.length : ℤ))) 3
      [⟨"aa", "neutral", [], 0, []⟩]).2.2 (by decide)⟩
